import Mathlib

/-!
# Fingerprint Index Engine — shallow embedding

A shallow embedding of `src/backend/services/fingerprint_engine.py`
(the Fingerprint Index Engine of the content-refactor-engine repository)
together with the SQLite tables created in
`src/backend/models/index_db.py`, and proofs of the specification claims
about it.

Strings are modelled as `List Char` (Python strings are sequences of code
points).  The two external library functions the engine calls —
`mmh3.hash` (MurmurHash3) and `hashlib.md5` — are not part of this
repository; the development is parameterised over them (`hashFn`,
`docIdOf`), since no claim depends on a particular hash value, only on
hash functions being deterministic.
-/

namespace CRE

/-- The character class Python's `\s` matches for ASCII input
(`re.sub(r'\s+', ' ', ...)` and `str.split()` / `str.strip()` agree on
this class for the ASCII range). -/
def isPySpace (c : Char) : Bool :=
  c = ' ' || c = '\t' || c = '\n' || c = '\r' || c = '\x0b' || c = '\x0c'

/-- The characters kept by `re.sub(r'[^a-z0-9\s\-]', '', text)`:
lowercase letters, digits, whitespace, and hyphen. -/
def keepChar (c : Char) : Bool :=
  ('a' ≤ c && c ≤ 'z') || ('0' ≤ c && c ≤ '9') || c = '-' || isPySpace c

/-- `str.lower` on one character (ASCII case mapping; the engine's inputs
pass through the keep-filter immediately afterwards, so only the ASCII
behaviour is ever observable). -/
def pyLower (c : Char) : Char := c.toLower

/-- `re.sub(r'\s+', ' ', text)`: replace every maximal run of whitespace
by a single space.  The boolean argument records whether the previous
character belonged to a whitespace run. -/
def collapseWsAux : Bool → List Char → List Char
  | _, [] => []
  | prevSpace, c :: rest =>
    if isPySpace c then
      if prevSpace then collapseWsAux true rest
      else ' ' :: collapseWsAux true rest
    else c :: collapseWsAux false rest

def collapseWs (l : List Char) : List Char := collapseWsAux false l

/-- `str.strip()`: drop leading and trailing whitespace. -/
def pyStrip (l : List Char) : List Char :=
  ((l.dropWhile isPySpace).reverse.dropWhile isPySpace).reverse

/-- `normalize_text` from `fingerprint_engine.py`:
lowercase, remove every character except `[a-z0-9\s\-]`, collapse
whitespace runs to one space, strip. -/
def normalize_text (text : List Char) : List Char :=
  pyStrip (collapseWs ((text.map pyLower).filter keepChar))

/-- `str.split()` (no separator argument): split on runs of whitespace,
discarding empty words.  The accumulator holds the current word reversed. -/
def splitWsAux : List Char → List Char → List (List Char)
  | [], acc => if acc.isEmpty then [] else [acc.reverse]
  | c :: rest, acc =>
    if isPySpace c then
      if acc.isEmpty then splitWsAux rest []
      else acc.reverse :: splitWsAux rest []
    else splitWsAux rest (c :: acc)

def pySplit (l : List Char) : List (List Char) := splitWsAux l []

/-- `" ".join(words)`. -/
def joinWords (ws : List (List Char)) : List Char :=
  (ws.intersperse [' ']).flatten

/-- `generate_shingles` from `fingerprint_engine.py`: overlapping `n`-word
windows at stride 1; a short non-empty text yields itself as the single
shingle; empty text yields no shingles. -/
def generate_shingles (text : List Char) (n : Nat := 5) : List (List Char) :=
  let words := pySplit text
  if words.length < n then
    if text.isEmpty then [] else [text]
  else
    (List.range (words.length - n + 1)).map fun i =>
      joinWords ((words.drop i).take n)

/-- `hash_shingles`: map MurmurHash3 (`mmh3.hash(·, signed=False)`) over
the shingles.  `hashFn` stands for the external `mmh3` library function. -/
def hash_shingles (hashFn : List Char → Nat) (shingles : List (List Char)) :
    List Nat :=
  shingles.map hashFn

/-- `generate_fingerprints`: normalize → shingle (window 5) → hash. -/
def generate_fingerprints (hashFn : List Char → Nat) (text : List Char) :
    List Nat :=
  hash_shingles hashFn (generate_shingles (normalize_text text) 5)

/-! ## Persistent store (SQLite tables from `index_db.py`) -/

/-- One row of the `indexed_documents` table
(`id TEXT PRIMARY KEY, url TEXT UNIQUE, content_snippet TEXT,
word_count INTEGER`; `indexed_at` is a display-only timestamp the engine
never reads and is omitted). -/
structure DocRow where
  id : List Char
  url : List Char
  content_snippet : List Char
  word_count : Nat
deriving DecidableEq, Repr

/-- The persisted store: the `indexed_documents` table and the
`fingerprints` inverted-index table (`fingerprint_hash INTEGER,
document_id TEXT`), each as a list of rows in insertion order. -/
structure IndexState where
  docs : List DocRow
  fps : List (Nat × List Char)
deriving DecidableEq, Repr

inductive IndexStatus
  | indexed
  | skipped
  | error
deriving DecidableEq, Repr

/-- The dictionary returned by `index_document`. -/
structure IndexResult where
  status : IndexStatus
  fingerprint_count : Nat
  doc_id : List Char
deriving DecidableEq, Repr

/-- `index_document` from `fingerprint_engine.py` on the success path
(no storage fault).  `docIdOf` stands for the external
`hashlib.md5(url).hexdigest()`. -/
def index_document (hashFn : List Char → Nat) (docIdOf : List Char → List Char)
    (st : IndexState) (url text : List Char) : IndexResult × IndexState :=
  let doc_id := docIdOf url
  if st.docs.any (fun d => d.id = doc_id) then
    (⟨.skipped, 0, doc_id⟩, st)
  else
    let fingerprints := generate_fingerprints hashFn text
    if fingerprints.isEmpty then
      (⟨.skipped, 0, doc_id⟩, st)
    else
      let row : DocRow := ⟨doc_id, url, text.take 500, (pySplit text).length⟩
      (⟨.indexed, fingerprints.length, doc_id⟩,
       ⟨st.docs ++ [row], st.fps ++ fingerprints.map (fun fp => (fp, doc_id))⟩)

/-- The storage operations `index_document` performs on its SQLite
connection, in program order. -/
inductive DbOp
  | selectExisting
  | insertDoc
  | insertFps
  | commitTx
deriving DecidableEq

/-- `index_document` with storage faults: `fails op = true` means the
corresponding SQLite call raises.  The `except` branch closes the
connection without committing, which rolls the open transaction back
(Python `sqlite3` semantics), so cursor writes are modelled as staged
and published only at `commitTx`.  A raised exception is caught and
reported as `status = "error"` with the store unchanged. -/
def index_document_db (hashFn : List Char → Nat)
    (docIdOf : List Char → List Char) (fails : DbOp → Bool)
    (st : IndexState) (url text : List Char) : IndexResult × IndexState :=
  let doc_id := docIdOf url
  if fails .selectExisting then (⟨.error, 0, doc_id⟩, st)
  else if st.docs.any (fun d => d.id = doc_id) then (⟨.skipped, 0, doc_id⟩, st)
  else
    let fingerprints := generate_fingerprints hashFn text
    if fingerprints.isEmpty then (⟨.skipped, 0, doc_id⟩, st)
    else if fails .insertDoc then (⟨.error, 0, doc_id⟩, st)
    else if fails .insertFps then (⟨.error, 0, doc_id⟩, st)
    else if fails .commitTx then (⟨.error, 0, doc_id⟩, st)
    else
      let row : DocRow := ⟨doc_id, url, text.take 500, (pySplit text).length⟩
      (⟨.indexed, fingerprints.length, doc_id⟩,
       ⟨st.docs ++ [row], st.fps ++ fingerprints.map (fun fp => (fp, doc_id))⟩)

/-! ## Lookup (`lookup_fingerprints`) -/

/-- One element of the list `lookup_fingerprints` returns. -/
structure LookupRow where
  doc_id : List Char
  url : List Char
  content_snippet : List Char
  match_count : Nat
  total_fingerprints : Nat
  similarity : ℚ
deriving DecidableEq, Repr

/-- Round the fraction `a / b` (with `b > 0`) to the nearest integer,
exact ties to the even integer (the rounding rule of CPython's
`round`).  `n` is the floor of the fraction and `r2 / b` twice its
fractional part. -/
def roundHalfEven (a : ℤ) (b : ℕ) : ℤ :=
  let n := a.fdiv b
  let r2 : ℤ := 2 * (a - n * b)
  if r2 < (b : ℤ) then n
  else if (b : ℤ) < r2 then n + 1
  else if n % 2 = 0 then n else n + 1

/-- Python's `round(x, 4)` modelled on exact rationals: the nearest
multiple of `1/10000`, ties to even — `q * 10000` is the fraction
`q.num * 10000 / q.den`.  (CPython rounds the binary double nearest
`x`; that agrees with exact rational rounding except when `x` lies
within one double-rounding error of a `0.00005` tie, e.g. exactly at
`1/20000`.) -/
def round4 (q : ℚ) : ℚ := mkRat (roundHalfEven (q.num * 10000) q.den) 10000

/-- `COUNT(*)` for one `GROUP BY f.document_id` group of
`WHERE f.fingerprint_hash IN (F_q)`: the number of inverted-index rows
of this document whose hash is a member of the query's fingerprint
list.  SQL `IN` is set membership, so duplicates in `fq` do not
multiply the count; duplicate rows of the document each count. -/
def matchCount (st : IndexState) (fq : List Nat) (docId : List Char) : Nat :=
  (st.fps.filter (fun r => r.2 = docId && fq.contains r.1)).length

/-- The documents the `JOIN … GROUP BY` produces a result row for:
those with at least one matching inverted-index row (enumerated here in
document-table order; `lookup_rel` quantifies over permutations, since
the SQL fixes no order between equal match counts). -/
def candidateDocs (st : IndexState) (fq : List Nat) : List DocRow :=
  st.docs.filter (fun d => decide (0 < matchCount st fq d.id))

/-- The result dictionary built for one candidate document:
`similarity = round(match_count / total_user_fps, 4)`. -/
def mkRow (st : IndexState) (fq : List Nat) (total : Nat) (d : DocRow) :
    LookupRow :=
  ⟨d.id, d.url, d.content_snippet, matchCount st fq d.id, total,
   round4 (mkRat (matchCount st fq d.id) total)⟩

/-- Descending match-count order (the `ORDER BY match_count DESC`). -/
def byCountDesc (a b : LookupRow) : Prop := b.match_count ≤ a.match_count

instance (a b : LookupRow) : Decidable (byCountDesc a b) :=
  inferInstanceAs (Decidable (b.match_count ≤ a.match_count))

/-- `lookup_fingerprints(text, top_k)` as a relation between inputs and
the returned list, *given that `sqlite3.connect` and `conn.cursor()`
(lines 181–182) succeeded* — those two calls run before the `try`
begins at line 184, and their failure raises to the caller; that
uncaught path is modelled by `lookup_fingerprints_outcome` below.
`dbFails = true` means a call inside the `try` raises (the `except`
branch returns `[]`).  On the success path the SQL's meaning is: some
ordering of the candidate rows that is sorted by match count
descending — the query has no secondary sort key, so the order of
equal-count rows is not specified — truncated to `top_k`. -/
def lookup_rel (hashFn : List Char → Nat) (st : IndexState)
    (text : List Char) (top_k : Nat) (dbFails : Bool)
    (res : List LookupRow) : Prop :=
  let fq := generate_fingerprints hashFn text
  if fq.isEmpty then res = []
  else if dbFails then res = []
  else ∃ perm : List LookupRow,
    perm.Perm ((candidateDocs st fq).map (mkRow st fq fq.length)) ∧
    perm.Sorted byCountDesc ∧
    res = perm.take top_k

/-- The spec's reading of step 4 of `lookup`: aggregate match counts
"counting duplicate hash occurrences with multiplicity", i.e. probe the
index once per hash occurrence in `F_q` and sum the per-occurrence row
counts.  Kept beside `matchCount` (the code's set-membership `IN`
semantics) for comparison. -/
def specMatchCount (st : IndexState) (fq : List Nat) (docId : List Char) :
    Nat :=
  (fq.map (fun h =>
    (st.fps.filter (fun r => r.2 = docId && r.1 = h)).length)).sum

/-- "Query has no overlap with the index": no query fingerprint occurs
in the inverted-index table. -/
def noOverlap (hashFn : List Char → Nat) (st : IndexState)
    (text : List Char) : Prop :=
  ∀ h ∈ generate_fingerprints hashFn text, ∀ r ∈ st.fps, r.1 ≠ h

/-- Outcome of a `lookup_fingerprints` call as seen by the caller: the
call either propagates an uncaught exception or returns a list. -/
inductive LookupOutcome
  | raised
  | returns (res : List LookupRow)
deriving DecidableEq, Repr

/-- `lookup_fingerprints(text, top_k)` with the failure structure of
the source made explicit.  Fingerprints are computed before any storage
access, and an empty list returns `[]` with no connection opened.
`sqlite3.connect(INDEX_DB_PATH)` and `conn.cursor()` (lines 181–182)
run *outside* the `try` that begins at line 184, so a storage failure
there (`connectFails = true`) propagates to the caller as an uncaught
exception.  A failure inside the `try` (`queryFails = true`) is caught
by the `except` branch, which returns `[]`.  The fault-free path is the
SQL semantics of `lookup_rel`. -/
def lookup_fingerprints_outcome (hashFn : List Char → Nat)
    (st : IndexState) (text : List Char) (top_k : Nat)
    (connectFails queryFails : Bool) (out : LookupOutcome) : Prop :=
  let fq := generate_fingerprints hashFn text
  if fq.isEmpty then out = .returns []
  else if connectFails then out = .raised
  else if queryFails then out = .returns []
  else ∃ perm : List LookupRow,
    perm.Perm ((candidateDocs st fq).map (mkRow st fq fq.length)) ∧
    perm.Sorted byCountDesc ∧
    out = .returns (perm.take top_k)

/-! ## Concrete stand-ins for the external hash functions

Used to instantiate witnesses and counterexamples.  `strCode` is
injective on character lists (base-1114112 positional code), so — like
MurmurHash3 on these short ASCII shingles — it is deterministic and
collision-free on every shingle appearing below. -/

def strCode (s : List Char) : Nat :=
  s.foldl (fun a c => a * 1114112 + c.toNat) 0

def idDocId (url : List Char) : List Char := url

/-! ## Concrete scenarios

Small stores built through `index_document` itself, used to instantiate
the claims.  `textRepeat` repeats one five-word phrase three times, so
its shingle list contains the phrase's shingle with multiplicity 3. -/

def emptyState : IndexState := ⟨[], []⟩

def textPhrase : List Char := "a b c d e".data

def textRepeat : List Char := "a b c d e a b c d e a b c d e".data

def textSeven : List Char := "a b c d e f g".data

/-- Store holding one document, url `u1`, text `textRepeat`. -/
def stTriple : IndexState :=
  (index_document strCode idDocId emptyState "u1".data textRepeat).snd

/-- Store holding one document, url `u1`, text `textPhrase`. -/
def stSingle : IndexState :=
  (index_document strCode idDocId emptyState "u1".data textPhrase).snd

/-- Store holding two documents with identical text `textPhrase`. -/
def stPair : IndexState :=
  (index_document strCode idDocId stSingle "u2".data textPhrase).snd

def fqPhrase : List Nat := generate_fingerprints strCode textPhrase

def fqSeven : List Nat := generate_fingerprints strCode textSeven

def fqRepeat : List Nat := generate_fingerprints strCode textRepeat

def docU1Repeat : DocRow :=
  ⟨"u1".data, "u1".data, textRepeat.take 500, (pySplit textRepeat).length⟩

def docU1Phrase : DocRow :=
  ⟨"u1".data, "u1".data, textPhrase.take 500, (pySplit textPhrase).length⟩

def docU2Phrase : DocRow :=
  ⟨"u2".data, "u2".data, textPhrase.take 500, (pySplit textPhrase).length⟩

/-- Lookup row for querying `stTriple` with `textPhrase`. -/
def rowTriple : LookupRow := mkRow stTriple fqPhrase fqPhrase.length docU1Repeat

/-- Lookup row for querying `stSingle` with `textSeven`. -/
def rowSeven : LookupRow := mkRow stSingle fqSeven fqSeven.length docU1Phrase

/-- Lookup row for querying `stSingle` with `textRepeat`. -/
def rowRepeat : LookupRow := mkRow stSingle fqRepeat fqRepeat.length docU1Phrase

/-- Lookup rows for querying `stPair` with `textPhrase`. -/
def rowPair1 : LookupRow := mkRow stPair fqPhrase fqPhrase.length docU1Phrase

def rowPair2 : LookupRow := mkRow stPair fqPhrase fqPhrase.length docU2Phrase

instance : IsTotal LookupRow byCountDesc :=
  ⟨fun a b => Nat.le_total b.match_count a.match_count⟩

instance : IsTrans LookupRow byCountDesc :=
  ⟨fun _ _ _ h1 h2 => le_trans h2 h1⟩

/-- Invariant used for the normalization-idempotency proof: whitespace
characters occur only as isolated single characters, and (when the flag
is `true`) not at the head.  `collapseWs` output satisfies it. -/
def spaced : Bool → List Char → Prop
  | _, [] => True
  | b, c :: rest =>
    if isPySpace c then b = false ∧ spaced true rest else spaced false rest

end CRE

/-! # Theorems for the specification claims -/

namespace CRE

/-- Helper: a list all of whose members are fixed by `f` maps to itself. -/
theorem map_eq_self_of_mem {α : Type} {f : α → α} :
    ∀ {l : List α}, (∀ c ∈ l, f c = c) → l.map f = l
  | [], _ => rfl
  | c :: rest, h => by
    have h1 : f c = c := h c (List.mem_cons_self c rest)
    have h2 := map_eq_self_of_mem (fun d hd => h d (List.mem_cons_of_mem c hd))
    simp [List.map_cons, h1, h2]

/-- **C8, the claim as frozen is false at its own literal**: the
normalization equation holds, but the normalized string has 8 words,
so with `n = 5` it yields exactly 4 shingles, not 5 (the source's own
docstring lists these 4 shingles). -/
theorem claim_C8_literal_counterexample :
    normalize_text "  Machine Learning is used in Artificial Intelligence systems!!! ".data =
      "machine learning is used in artificial intelligence systems".data ∧
    (generate_shingles
        (normalize_text "  Machine Learning is used in Artificial Intelligence systems!!! ".data)
        5).length = 4 ∧
    (generate_shingles
        (normalize_text "  Machine Learning is used in Artificial Intelligence systems!!! ".data)
        5).length ≠ 5 := by
  refine ⟨by decide, by decide, by decide⟩

/-- **C8 (amended)**: `normalize_text` maps the literal to
`"machine learning is used in artificial intelligence systems"`, an
8-word string that yields exactly 4 shingles at `n = 5`. -/
theorem claim_C8_literal_case :
    normalize_text "  Machine Learning is used in Artificial Intelligence systems!!! ".data =
      "machine learning is used in artificial intelligence systems".data ∧
    (pySplit "machine learning is used in artificial intelligence systems".data).length = 8 ∧
    (generate_shingles "machine learning is used in artificial intelligence systems".data
        5).length = 4 := by
  refine ⟨by decide, by decide, by decide⟩

/-- **C6**: for window size `n`, `generate_shingles` emits the
`word_count - n + 1` stride-1 windows of `n` consecutive words when
`word_count ≥ n`; exactly the whole text as one shingle when
`0 < word_count < n`; and nothing on empty text (stated for positive
window sizes; the engine always uses `n = 5`). -/
theorem claim_C6_shingle_windows (text : List Char) (n : Nat) :
    (n ≤ (pySplit text).length →
      generate_shingles text n =
        (List.range ((pySplit text).length - n + 1)).map
          (fun i => joinWords (((pySplit text).drop i).take n)) ∧
      (generate_shingles text n).length = (pySplit text).length - n + 1) ∧
    (0 < (pySplit text).length → (pySplit text).length < n →
      generate_shingles text n = [text]) ∧
    (0 < n → text = [] → generate_shingles text n = []) := by
  refine ⟨fun hge => ?_, fun hpos hlt => ?_, fun hn hempty => ?_⟩
  · have hnot : ¬ (pySplit text).length < n := not_lt.mpr hge
    constructor
    · simp only [generate_shingles, if_neg hnot]
    · simp only [generate_shingles, if_neg hnot, List.length_map,
        List.length_range]
  · have hne : text ≠ [] := by
      intro h
      subst h
      simp [pySplit, splitWsAux] at hpos
    have : text.isEmpty = false := by
      cases text with
      | nil => exact absurd rfl hne
      | cons c t => rfl
    simp only [generate_shingles, if_pos hlt, this]
    rfl
  · subst hempty
    have h0 : (pySplit ([] : List Char)).length = 0 := rfl
    simp only [generate_shingles, h0, hn, if_pos hn]
    rfl

/-- Witness for C6: a 6-word text yields 2 shingles at `n = 5`; a
2-word text yields itself as the only shingle; the empty text yields
none. -/
theorem claim_C6_shingle_windows_witness :
    (generate_shingles "a b c d e f".data 5).length = 2 ∧
    generate_shingles "a b".data 5 = ["a b".data] ∧
    generate_shingles ([] : List Char) 5 = [] :=
  ⟨((claim_C6_shingle_windows "a b c d e f".data 5).1 (by decide)).2.trans
      (by decide),
   (claim_C6_shingle_windows "a b".data 5).2.1 (by decide) (by decide),
   (claim_C6_shingle_windows [] 5).2.2 (by decide) rfl⟩

/-- **C3**: once `index_document` has indexed a url, a second call with
the same url (any text) returns `skipped` with `fingerprint_count = 0`
and leaves both tables exactly as they were. -/
theorem claim_C3_reindex_idempotent (hashFn : List Char → Nat)
    (docIdOf : List Char → List Char) (st : IndexState)
    (url t1 t2 : List Char)
    (h : (index_document hashFn docIdOf st url t1).1.status = .indexed) :
    (index_document hashFn docIdOf
        (index_document hashFn docIdOf st url t1).2 url t2).1.status =
      .skipped ∧
    (index_document hashFn docIdOf
        (index_document hashFn docIdOf st url t1).2 url t2).1.fingerprint_count
      = 0 ∧
    (index_document hashFn docIdOf
        (index_document hashFn docIdOf st url t1).2 url t2).2 =
      (index_document hashFn docIdOf st url t1).2 := by
  simp only [index_document] at h ⊢
  split at h <;> rename_i h1
  · simp at h
  · split at h <;> rename_i h2
    · simp at h
    · simp [h1, h2]

/-- Witness for C3: indexing `u1` and then re-indexing it with a
different text skips and changes nothing. -/
theorem claim_C3_reindex_idempotent_witness :
    (index_document strCode idDocId
        (index_document strCode idDocId emptyState "u1".data textPhrase).2
        "u1".data "x y".data).1.status = .skipped ∧
    (index_document strCode idDocId
        (index_document strCode idDocId emptyState "u1".data textPhrase).2
        "u1".data "x y".data).1.fingerprint_count = 0 ∧
    (index_document strCode idDocId
        (index_document strCode idDocId emptyState "u1".data textPhrase).2
        "u1".data "x y".data).2 =
      (index_document strCode idDocId emptyState "u1".data textPhrase).2 :=
  claim_C3_reindex_idempotent strCode idDocId emptyState "u1".data textPhrase
    "x y".data (by decide)

/-- **C4**: a failing storage step makes `index_document` report
`error` with the store unchanged; in every outcome the store is either
untouched or holds the complete document-plus-fingerprints write (never
a partial subset); and with no faults the faultable model coincides
with `index_document`. -/
theorem claim_C4_atomic_on_failure (hashFn : List Char → Nat)
    (docIdOf : List Char → List Char) (fails : DbOp → Bool)
    (st : IndexState) (url text : List Char) :
    ((index_document_db hashFn docIdOf fails st url text).1.status = .error →
      (index_document_db hashFn docIdOf fails st url text).2 = st) ∧
    ((index_document_db hashFn docIdOf fails st url text).2 = st ∨
      (index_document_db hashFn docIdOf fails st url text).2 =
        (index_document hashFn docIdOf st url text).2) ∧
    ((∀ op, fails op = false) →
      index_document_db hashFn docIdOf fails st url text =
        index_document hashFn docIdOf st url text) := by
  refine ⟨?_, ?_, ?_⟩ <;> simp only [index_document_db, index_document] <;>
    (repeat' split) <;> simp_all <;> exact ⟨_, by assumption⟩

/-- Witness for C4: a failing `commit` while indexing a fresh document
leaves the store empty. -/
theorem claim_C4_atomic_on_failure_witness :
    (index_document_db strCode idDocId (fun op => decide (op = .commitTx))
        emptyState "u1".data textPhrase).2 = emptyState :=
  (claim_C4_atomic_on_failure strCode idDocId _ emptyState "u1".data
      textPhrase).1 (by decide)


/-- Helper: `List.contains` on `Nat` agrees with decidable membership. -/
theorem contains_eq_decide_mem (l : List Nat) (x : Nat) :
    l.contains x = decide (x ∈ l) := by
  induction l with
  | nil => rfl
  | cons c t ih => simp [List.contains_cons]

/-- Helper: introduction rule for `lookup_rel` on the fault-free path. -/
theorem lookup_rel_of_perm (hashFn : List Char → Nat) (st : IndexState)
    (text : List Char) (top_k : Nat) (res perm : List LookupRow)
    (hne : (generate_fingerprints hashFn text).isEmpty = false)
    (hperm : perm.Perm
      ((candidateDocs st (generate_fingerprints hashFn text)).map
        (mkRow st (generate_fingerprints hashFn text)
          (generate_fingerprints hashFn text).length)))
    (hsort : perm.Sorted byCountDesc)
    (hres : res = perm.take top_k) :
    lookup_rel hashFn st text top_k false res := by
  simp only [lookup_rel, hne, Bool.false_eq_true, if_false]
  exact ⟨perm, hperm, hsort, hres⟩

/-- Helper: every row of a fault-free lookup result is the row built
for some stored document with a positive match count, and the query
fingerprint list is non-empty. -/
theorem lookup_row_shape (hashFn : List Char → Nat) (st : IndexState)
    (text : List Char) (top_k : Nat) (res : List LookupRow) (row : LookupRow)
    (hrel : lookup_rel hashFn st text top_k false res) (hmem : row ∈ res) :
    (generate_fingerprints hashFn text).isEmpty = false ∧
    ∃ d ∈ st.docs,
      0 < matchCount st (generate_fingerprints hashFn text) d.id ∧
      row = mkRow st (generate_fingerprints hashFn text)
        (generate_fingerprints hashFn text).length d := by
  simp only [lookup_rel] at hrel
  split at hrel
  · subst hrel; cases hmem
  · rename_i hne
    rw [if_neg (by simp)] at hrel
    obtain ⟨perm, hperm, hsort, hres⟩ := hrel
    subst hres
    have hp : row ∈ perm := List.mem_of_mem_take hmem
    obtain ⟨d, hd, hdrow⟩ := List.mem_map.mp (hperm.mem_iff.mp hp)
    have hdd := List.mem_filter.mp hd
    refine ⟨by simpa using hne, d, hdd.1, by simpa using hdd.2, hdrow.symm⟩

/-- Helper: rounding `a / b` half-even yields at least `1` once the
fraction exceeds one half. -/
theorem roundHalfEven_ge_one (a : ℤ) (b : ℕ) (hb : 0 < b)
    (hba : (b : ℤ) < 2 * a) : 1 ≤ roundHalfEven a b := by
  have hbz : (0 : ℤ) < (b : ℤ) := by exact_mod_cast hb
  have ha : 0 ≤ a := by omega
  have hm : 0 ≤ a.fdiv (b : ℤ) := Int.fdiv_nonneg ha (le_of_lt hbz)
  by_cases h1 : 1 ≤ a.fdiv (b : ℤ)
  · simp only [roundHalfEven]
    (repeat' split) <;> omega
  · have h0 : a.fdiv (b : ℤ) = 0 := by omega
    simp only [roundHalfEven, h0, zero_mul, sub_zero]
    (repeat' split) <;> omega

/-- Helper: `round4 (mc / total)` is positive for a positive match
count once the query has at most `19999` fingerprints. -/
theorem round4_mkRat_pos (mc total : Nat) (hmc : 1 ≤ mc) (ht1 : 1 ≤ total)
    (ht2 : total ≤ 19999) : 0 < round4 (mkRat mc total) := by
  set q := mkRat (mc : ℤ) total with hq
  have hqpos : 0 < q := by
    rw [hq, Rat.mkRat_eq_div]
    apply div_pos
    · exact_mod_cast Nat.lt_of_lt_of_le Nat.zero_lt_one (by exact_mod_cast hmc)
    · exact_mod_cast Nat.lt_of_lt_of_le Nat.zero_lt_one ht1
  have hnum : 1 ≤ q.num := Rat.num_pos.mpr hqpos
  have hden : q.den ≤ total := by
    have hd : (q.den : ℤ) ∣ (total : ℤ) := by
      rw [hq, Rat.mkRat_eq_divInt]
      exact Rat.den_dvd _ _
    have : q.den ∣ total := by exact_mod_cast hd
    exact Nat.le_of_dvd (by omega) this
  have hkey : 1 ≤ roundHalfEven (q.num * 10000) q.den := by
    apply roundHalfEven_ge_one
    · exact q.pos
    · have h1 : (q.den : ℤ) ≤ 19999 := by exact_mod_cast le_trans hden ht2
      have h2 : (20000 : ℤ) ≤ 20000 * q.num := by nlinarith
      linarith [h2]
  rw [round4, Rat.mkRat_eq_div]
  apply div_pos
  · exact_mod_cast Int.lt_of_lt_of_le Int.zero_lt_one hkey
  · norm_num

/-- **C1, the claim as frozen is false on the code**: similarity is not
confined to the `0–1` scale.  Indexing one document whose text repeats
a five-word phrase three times and querying that phrase alone gives the
candidate `match_count = 3` against a single query fingerprint, so its
reported similarity is `3 > 1`. -/
theorem claim_C1_similarity_above_one_counterexample :
    lookup_rel strCode stTriple textPhrase 5 false [rowTriple] ∧
    rowTriple ∈ [rowTriple] ∧ 1 < rowTriple.similarity :=
  ⟨lookup_rel_of_perm strCode stTriple textPhrase 5 [rowTriple] [rowTriple]
      (by decide) (by decide) (by decide) (by decide),
   by decide, by decide⟩

/-- **C1 (amended)**: every candidate's similarity is strictly
positive whenever the query has at most `19999` fingerprints (rounding
to four decimals annihilates smaller ratios), but it is not bounded by
`1`: a candidate holding more matching fingerprint rows than the query
has fingerprints scores above `1`. -/
theorem claim_C1_similarity_positive (hashFn : List Char → Nat)
    (st : IndexState) (text : List Char) (top_k : Nat)
    (res : List LookupRow) (row : LookupRow)
    (hrel : lookup_rel hashFn st text top_k false res) (hmem : row ∈ res)
    (hsmall : row.total_fingerprints ≤ 19999) : 0 < row.similarity := by
  obtain ⟨hne, d, hd, hpos, rfl⟩ :=
    lookup_row_shape hashFn st text top_k res row hrel hmem
  have hlen : 1 ≤ (generate_fingerprints hashFn text).length := by
    cases hfq : generate_fingerprints hashFn text with
    | nil => rw [hfq] at hne; cases hne
    | cons a t => simp [hfq]
  exact round4_mkRat_pos _ _ hpos hlen hsmall

/-- Witness for C1 (amended): a one-of-three-fingerprint match scores
`0.3333 > 0`. -/
theorem claim_C1_similarity_positive_witness : 0 < rowSeven.similarity :=
  claim_C1_similarity_positive strCode stSingle textSeven 5 [rowSeven]
    rowSeven
    (lookup_rel_of_perm strCode stSingle textSeven 5 [rowSeven] [rowSeven]
      (by decide) (by decide) (by decide) (by decide))
    (by decide) (by decide)

/-- **C2, the claim as frozen is false on the code**: the reported
similarity is not exactly `matchCount / |F_q|` — the code rounds it to
four decimal places.  With one match among three query fingerprints the
code reports `0.3333 ≠ 1/3`. -/
theorem claim_C2_exact_ratio_counterexample :
    lookup_rel strCode stSingle textSeven 5 false [rowSeven] ∧
    rowSeven.match_count = 1 ∧ rowSeven.total_fingerprints = 3 ∧
    rowSeven.similarity ≠
      mkRat rowSeven.match_count rowSeven.total_fingerprints :=
  ⟨lookup_rel_of_perm strCode stSingle textSeven 5 [rowSeven] [rowSeven]
      (by decide) (by decide) (by decide) (by decide),
   by decide, by decide, by decide⟩

/-- **C2 (amended)**: every returned candidate's similarity equals
`matchCount / |F_q|` rounded to four decimal places, with `|F_q|` the
query's fingerprint count (duplicates included) — the formula never
reads the candidate's own fingerprint count (directional containment,
not symmetric Jaccard). -/
theorem claim_C2_similarity_rounded_ratio (hashFn : List Char → Nat)
    (st : IndexState) (text : List Char) (top_k : Nat)
    (res : List LookupRow) (row : LookupRow)
    (hrel : lookup_rel hashFn st text top_k false res) (hmem : row ∈ res) :
    row.similarity = round4 (mkRat row.match_count row.total_fingerprints) ∧
    row.total_fingerprints = (generate_fingerprints hashFn text).length := by
  obtain ⟨hne, d, hd, hpos, rfl⟩ :=
    lookup_row_shape hashFn st text top_k res row hrel hmem
  exact ⟨rfl, rfl⟩

/-- Witness for C2 (amended), at the one-of-three-fingerprints query. -/
theorem claim_C2_similarity_rounded_ratio_witness :
    rowSeven.similarity =
      round4 (mkRat rowSeven.match_count rowSeven.total_fingerprints) ∧
    rowSeven.total_fingerprints =
      (generate_fingerprints strCode textSeven).length :=
  claim_C2_similarity_rounded_ratio strCode stSingle textSeven 5 [rowSeven]
    rowSeven
    (lookup_rel_of_perm strCode stSingle textSeven 5 [rowSeven] [rowSeven]
      (by decide) (by decide) (by decide) (by decide))
    (by decide)

/-- **C5, the claim as frozen is false on the code**: duplicate hash
occurrences in `F_q` are not probed separately — the SQL `IN` clause is
a set-membership filter.  A query whose fingerprint list contains one
hash three times scores `match_count = 1` against a document holding
that hash once, not the `3` the per-occurrence sum prescribes. -/
theorem claim_C5_query_multiplicity_counterexample :
    lookup_rel strCode stSingle textRepeat 5 false [rowRepeat] ∧
    rowRepeat.match_count = 1 ∧
    specMatchCount stSingle fqRepeat rowRepeat.doc_id = 3 ∧
    rowRepeat.match_count ≠ specMatchCount stSingle fqRepeat rowRepeat.doc_id :=
  ⟨lookup_rel_of_perm strCode stSingle textRepeat 5 [rowRepeat] [rowRepeat]
      (by decide) (by decide) (by decide) (by decide),
   by decide, by decide, by decide⟩

/-- **C5 (amended)**: a candidate's `match_count` is the number of its
inverted-index rows whose hash belongs to the *set* of query
fingerprints: candidate-side duplicate rows count with multiplicity,
query-side duplicates are collapsed by the `IN` clause. -/
theorem claim_C5_match_count_set_semantics (hashFn : List Char → Nat)
    (st : IndexState) (text : List Char) (top_k : Nat)
    (res : List LookupRow) (row : LookupRow)
    (hrel : lookup_rel hashFn st text top_k false res) (hmem : row ∈ res) :
    row.match_count =
      matchCount st (generate_fingerprints hashFn text) row.doc_id ∧
    row.match_count =
      (st.fps.filter (fun r => r.2 = row.doc_id &&
        decide (r.1 ∈ generate_fingerprints hashFn text))).length := by
  obtain ⟨hne, d, hd, hpos, rfl⟩ :=
    lookup_row_shape hashFn st text top_k res row hrel hmem
  refine ⟨rfl, ?_⟩
  simp only [mkRow, matchCount]
  exact congrArg List.length
    (List.filter_congr (fun r _ => by rw [contains_eq_decide_mem]))

/-- Witness for C5 (amended), at the triple-phrase store and query. -/
theorem claim_C5_match_count_set_semantics_witness :
    rowTriple.match_count =
      matchCount stTriple (generate_fingerprints strCode textPhrase)
        rowTriple.doc_id ∧
    rowTriple.match_count =
      (stTriple.fps.filter (fun r => r.2 = rowTriple.doc_id &&
        decide (r.1 ∈ generate_fingerprints strCode textPhrase))).length :=
  claim_C5_match_count_set_semantics strCode stTriple textPhrase 5
    [rowTriple] rowTriple
    (lookup_rel_of_perm strCode stTriple textPhrase 5 [rowTriple] [rowTriple]
      (by decide) (by decide) (by decide) (by decide))
    (by decide)

/-- **C9, the claim as frozen is false on the code**: the query orders
only by `match_count DESC` with no secondary key, so the relative order
of equal-count candidates is not determined.  Two documents with
identical text tie, and both orders satisfy the query's semantics. -/
theorem claim_C9_tie_order_counterexample :
    lookup_rel strCode stPair textPhrase 5 false [rowPair1, rowPair2] ∧
    lookup_rel strCode stPair textPhrase 5 false [rowPair2, rowPair1] ∧
    ([rowPair1, rowPair2] : List LookupRow) ≠ [rowPair2, rowPair1] :=
  ⟨lookup_rel_of_perm strCode stPair textPhrase 5 _ [rowPair1, rowPair2]
      (by decide) (by decide) (by decide) (by decide),
   lookup_rel_of_perm strCode stPair textPhrase 5 _ [rowPair2, rowPair1]
      (by decide) (by decide) (by decide) (by decide),
   by decide⟩

/-- **C9 (amended)**: every result list the query can return is sorted
by match count descending (and truncated to `top_k`); only the tie
order is left open. -/
theorem claim_C9_sorted_by_match_count (hashFn : List Char → Nat)
    (st : IndexState) (text : List Char) (top_k : Nat)
    (res : List LookupRow)
    (hrel : lookup_rel hashFn st text top_k false res) :
    res.Sorted byCountDesc := by
  simp only [lookup_rel] at hrel
  split at hrel
  · subst hrel; exact List.sorted_nil
  · rw [if_neg (by simp)] at hrel
    obtain ⟨perm, hperm, hsort, hres⟩ := hrel
    subst hres
    exact List.Pairwise.sublist (List.take_sublist top_k perm) hsort

/-- Witness for C9 (amended): the tied two-document result is sorted. -/
theorem claim_C9_sorted_by_match_count_witness :
    ([rowPair1, rowPair2] : List LookupRow).Sorted byCountDesc :=
  claim_C9_sorted_by_match_count strCode stPair textPhrase 5
    [rowPair1, rowPair2]
    (lookup_rel_of_perm strCode stPair textPhrase 5 _ [rowPair1, rowPair2]
      (by decide) (by decide) (by decide) (by decide))

/-- Helper: under `noOverlap` no document has a matching inverted-index
row, so the query's `JOIN … GROUP BY` produces no candidates. -/
theorem candidateDocs_nil_of_noOverlap (hashFn : List Char → Nat)
    (st : IndexState) (text : List Char) (hno : noOverlap hashFn st text) :
    candidateDocs st (generate_fingerprints hashFn text) = [] := by
  unfold candidateDocs
  rw [List.filter_eq_nil_iff]
  intro d _
  have hz : matchCount st (generate_fingerprints hashFn text) d.id = 0 := by
    unfold matchCount
    rw [List.length_eq_zero, List.filter_eq_nil_iff]
    intro r hr
    simp only [Bool.and_eq_true, decide_eq_true_eq, not_and,
      contains_eq_decide_mem]
    intro _ hmem
    exact hno r.1 (by simpa using hmem) r hr rfl
  simp [hz]

/-- Helper: with a non-empty fingerprint list and a failing connection
open, the only admissible outcome is a raised exception. -/
theorem lookup_outcome_connect_raised (hashFn : List Char → Nat)
    (st : IndexState) (text : List Char) (top_k : Nat) (queryFails : Bool)
    (out : LookupOutcome)
    (hne : (generate_fingerprints hashFn text).isEmpty = false)
    (h : lookup_fingerprints_outcome hashFn st text top_k true queryFails
      out) :
    out = .raised := by
  simpa [lookup_fingerprints_outcome, hne] using h

/-- Helper: on the fault-free path, the outcome relation returns
exactly the lists `lookup_rel` admits — the refined model agrees with
the one the ranking and similarity claims are stated over. -/
theorem lookup_outcome_returns_iff (hashFn : List Char → Nat)
    (st : IndexState) (text : List Char) (top_k : Nat)
    (res : List LookupRow) :
    lookup_fingerprints_outcome hashFn st text top_k false false
      (.returns res) ↔ lookup_rel hashFn st text top_k false res := by
  simp only [lookup_fingerprints_outcome, lookup_rel, Bool.false_eq_true,
    if_false, LookupOutcome.returns.injEq]

/-- **C10, the claim as frozen is false on the code**:
`sqlite3.connect(INDEX_DB_PATH)` and `conn.cursor()`
(`fingerprint_engine.py:181-182`) run before the `try` that begins at
line 184, so a storage failure while opening the connection raises to
the caller instead of being caught.  At a concrete store and query the
only admissible outcome under a connect-time failure is a raised
exception; returning the empty list is not admissible, so not every
internal storage failure is conflated with "no matches". -/
theorem claim_C10_connect_failure_counterexample :
    lookup_fingerprints_outcome strCode stSingle textPhrase 5 true false
      .raised ∧
    ¬ lookup_fingerprints_outcome strCode stSingle textPhrase 5 true false
      (.returns []) ∧
    LookupOutcome.raised ≠ .returns [] := by
  refine ⟨?_, ?_, by decide⟩
  · simp [lookup_fingerprints_outcome,
      (by decide : (generate_fingerprints strCode textPhrase).isEmpty =
        false)]
  · intro h
    exact LookupOutcome.noConfusion
      (lookup_outcome_connect_raised strCode stSingle textPhrase 5 false _
        (by decide) h)

/-- **C10 (amended)**: once the connection and cursor are open, lookup
never propagates an error — an in-`try` storage fault returns `[]`, a
query with no index overlap returns `[]` on the fault-free path, the
two outcomes are indistinguishable at the interface, and a fault-free
result always exists; but a storage failure while opening the
connection or cursor (outside the `try`) raises to the caller whenever
the query has fingerprints. -/
theorem claim_C10_catch_scope (hashFn : List Char → Nat) (st : IndexState)
    (text : List Char) (top_k : Nat) (out1 out2 out3 : LookupOutcome)
    (h1 : lookup_fingerprints_outcome hashFn st text top_k false true out1)
    (hno : noOverlap hashFn st text)
    (h2 : lookup_fingerprints_outcome hashFn st text top_k false false out2)
    (h3 : lookup_fingerprints_outcome hashFn st text top_k true false out3) :
    out1 = .returns [] ∧ out2 = .returns [] ∧ out1 = out2 ∧
    (∃ o, lookup_fingerprints_outcome hashFn st text top_k false false o) ∧
    ((generate_fingerprints hashFn text).isEmpty = false →
      out3 = .raised) := by
  have ho1 : out1 = .returns [] := by
    simp only [lookup_fingerprints_outcome] at h1
    split at h1
    · exact h1
    · simpa using h1
  have ho2 : out2 = .returns [] := by
    simp only [lookup_fingerprints_outcome] at h2
    split at h2
    · exact h2
    · rw [if_neg (by simp), if_neg (by simp)] at h2
      obtain ⟨perm, hperm, hsort, hres⟩ := h2
      rw [candidateDocs_nil_of_noOverlap hashFn st text hno] at hperm
      simp only [List.map_nil] at hperm
      rw [hperm.eq_nil] at hres
      simpa using hres
  refine ⟨ho1, ho2, ho1.trans ho2.symm, ?_, ?_⟩
  · by_cases hne : (generate_fingerprints hashFn text).isEmpty = true
    · exact ⟨.returns [], by simp [lookup_fingerprints_outcome, hne]⟩
    · refine ⟨.returns ((List.insertionSort byCountDesc
          ((candidateDocs st (generate_fingerprints hashFn text)).map
            (mkRow st (generate_fingerprints hashFn text)
              (generate_fingerprints hashFn text).length))).take top_k), ?_⟩
      rw [lookup_outcome_returns_iff]
      exact lookup_rel_of_perm hashFn st text top_k _ _ (by simpa using hne)
        (List.perm_insertionSort byCountDesc _)
        (List.sorted_insertionSort byCountDesc _) rfl
  · intro hne
    exact lookup_outcome_connect_raised hashFn st text top_k false out3 hne
      h3

/-- Witness for C10 (amended): for a two-word query sharing nothing
with the indexed phrase, a caught in-`try` fault and the fault-free
path both return `[]`, and a connect-time fault raises. -/
theorem claim_C10_catch_scope_witness :
    LookupOutcome.returns [] = .returns [] ∧
    LookupOutcome.returns [] = .returns [] ∧
    LookupOutcome.returns [] = .returns [] ∧
    (∃ o, lookup_fingerprints_outcome strCode stSingle "zz ww".data 5 false
      false o) ∧
    ((generate_fingerprints strCode "zz ww".data).isEmpty = false →
      LookupOutcome.raised = .raised) :=
  claim_C10_catch_scope strCode stSingle "zz ww".data 5 (.returns [])
    (.returns []) .raised
    (by simp only [lookup_fingerprints_outcome]; split <;> simp)
    (by unfold noOverlap; decide)
    (by simp only [lookup_fingerprints_outcome]
        rw [if_neg (by decide), if_neg (by simp), if_neg (by simp)]
        exact ⟨[], by decide, by decide, rfl⟩)
    (by simp only [lookup_fingerprints_outcome]
        rw [if_neg (by decide)]
        simp)

/-- Helper: lowercasing fixes every character the keep-filter admits
(those characters are never in the `A`–`Z` range). -/
theorem pyLower_eq_self (c : Char) (h : keepChar c = true) : pyLower c = c := by
  have hn : 97 ≤ c.toNat ∨ (48 ≤ c.toNat ∧ c.toNat ≤ 57) ∨ c.toNat = 45 ∨
      c.toNat ≤ 32 := by
    simp only [keepChar, isPySpace, Bool.or_eq_true, Bool.and_eq_true,
      decide_eq_true_eq] at h
    rcases h with ((⟨h1, _⟩ | ⟨h1, h2⟩) | rfl) |
      ((((rfl | rfl) | rfl) | rfl) | rfl) | rfl
    · exact Or.inl h1
    · exact Or.inr (Or.inl ⟨h1, h2⟩)
    all_goals decide
  show c.toLower = c
  simp only [Char.toLower]
  rw [if_neg]
  omega

/-- Helper: every character emitted by whitespace collapsing is either
the inserted `' '` or a non-whitespace character of the input. -/
theorem collapse_mem (l : List Char) (b : Bool) :
    ∀ c ∈ collapseWsAux b l, c = ' ' ∨ (c ∈ l ∧ isPySpace c = false) := by
  induction l generalizing b with
  | nil => intro c hc; cases hc
  | cons a rest ih =>
    intro c hc
    simp only [collapseWsAux] at hc
    by_cases ha : isPySpace a = true
    · rw [if_pos ha] at hc
      by_cases hb : b = true
      · subst hb
        simp only [if_pos rfl] at hc
        rcases ih true c hc with h | ⟨h1, h2⟩
        · exact Or.inl h
        · exact Or.inr ⟨List.mem_cons_of_mem a h1, h2⟩
      · simp only [Bool.not_eq_true] at hb
        subst hb
        simp only [Bool.false_eq_true, if_false, List.mem_cons] at hc
        rcases hc with h | hc
        · exact Or.inl h
        · rcases ih true c hc with h | ⟨h1, h2⟩
          · exact Or.inl h
          · exact Or.inr ⟨List.mem_cons_of_mem a h1, h2⟩
    · rw [if_neg ha] at hc
      rcases List.mem_cons.mp hc with rfl | hc
      · exact Or.inr ⟨List.mem_cons_self _ _, by simpa using ha⟩
      · rcases ih false c hc with h | ⟨h1, h2⟩
        · exact Or.inl h
        · exact Or.inr ⟨List.mem_cons_of_mem a h1, h2⟩

/-- Helper: whitespace collapsing establishes the `spaced` invariant. -/
theorem collapse_spaced (l : List Char) (b : Bool) :
    spaced b (collapseWsAux b l) := by
  induction l generalizing b with
  | nil => trivial
  | cons a rest ih =>
    simp only [collapseWsAux]
    by_cases ha : isPySpace a = true
    · rw [if_pos ha]
      by_cases hb : b = true
      · subst hb; simp only [if_pos rfl]; exact ih true
      · simp only [Bool.not_eq_true] at hb
        subst hb
        simp only [Bool.false_eq_true, if_false]
        show spaced false (' ' :: collapseWsAux true rest)
        simp only [spaced, if_pos (by decide : isPySpace ' ' = true)]
        exact ⟨by trivial, ih true⟩
    · rw [if_neg ha]
      show spaced b (a :: collapseWsAux false rest)
      simp only [spaced, if_neg ha]
      exact ih false

/-- Helper: whitespace collapsing fixes a list that satisfies the
`spaced` invariant and whose whitespace is exactly `' '`. -/
theorem collapse_fix (l : List Char) (b : Bool) (hs : spaced b l)
    (hsp : ∀ c ∈ l, isPySpace c = true → c = ' ') :
    collapseWsAux b l = l := by
  induction l generalizing b with
  | nil => rfl
  | cons a rest ih =>
    simp only [collapseWsAux]
    by_cases ha : isPySpace a = true
    · have ha2 : a = ' ' := hsp a (List.mem_cons_self _ _) ha
      simp only [spaced, if_pos ha] at hs
      obtain ⟨hb, hrest⟩ := hs
      subst hb
      simp only [if_pos ha, Bool.false_eq_true, if_false]
      rw [ha2]
      congr 1
      exact ih true hrest (fun c hc => hsp c (List.mem_cons_of_mem a hc))
    · simp only [spaced, if_neg ha] at hs
      rw [if_neg ha]
      congr 1
      exact ih false hs (fun c hc => hsp c (List.mem_cons_of_mem a hc))

/-- Helper: the `spaced` invariant restricts to a prefix. -/
theorem spaced_append_left (l2 : List Char) :
    ∀ (l1 : List Char) (b : Bool), spaced b (l1 ++ l2) → spaced b l1 := by
  intro l1
  induction l1 with
  | nil => intro b _; trivial
  | cons a rest ih =>
    intro b h
    simp only [List.cons_append, spaced] at h ⊢
    by_cases ha : isPySpace a = true
    · rw [if_pos ha] at h ⊢
      exact ⟨h.1, ih true h.2⟩
    · rw [if_neg ha] at h ⊢
      exact ih false h

/-- Helper: dropping leading whitespace re-establishes `spaced false`. -/
theorem spaced_dropWhile :
    ∀ (l : List Char) (b : Bool), spaced b l →
      spaced false (l.dropWhile isPySpace) := by
  intro l
  induction l with
  | nil => intro b _; trivial
  | cons a rest ih =>
    intro b h
    simp only [spaced] at h
    rw [List.dropWhile_cons]
    by_cases ha : isPySpace a = true
    · rw [if_pos ha] at h ⊢
      exact ih true h.2
    · rw [if_neg ha] at h ⊢
      simp only [spaced, if_neg ha]
      exact h

/-- Helper: the head surviving `dropWhile` fails the predicate. -/
theorem dropWhile_head_false {p : Char → Bool} :
    ∀ {l : List Char} {c : Char} {t : List Char},
      List.dropWhile p l = c :: t → p c = false := by
  intro l
  induction l with
  | nil => intro c t h; cases h
  | cons a rest ih =>
    intro c t h
    rw [List.dropWhile_cons] at h
    by_cases hp : p a = true
    · rw [if_pos hp] at h
      exact ih h
    · rw [if_neg hp] at h
      injection h with h1 _
      subst h1
      simpa using hp

/-- Helper: stripping yields a sublist. -/
theorem pyStrip_sublist (l : List Char) : (pyStrip l).Sublist l := by
  unfold pyStrip
  have h1 : (l.dropWhile isPySpace).Sublist l := List.dropWhile_sublist _
  have h2 := (List.dropWhile_sublist (l := (l.dropWhile isPySpace).reverse)
    isPySpace).reverse
  rw [List.reverse_reverse] at h2
  exact h2.trans h1

/-- Helper: after dropping leading whitespace, the list is the stripped
list followed by its trailing whitespace. -/
theorem pyStrip_decomp (l : List Char) :
    l.dropWhile isPySpace =
      pyStrip l ++ ((l.dropWhile isPySpace).reverse.takeWhile isPySpace).reverse := by
  unfold pyStrip
  have h := List.takeWhile_append_dropWhile isPySpace
    (l.dropWhile isPySpace).reverse
  have h2 := congrArg List.reverse h
  rw [List.reverse_append, List.reverse_reverse] at h2
  exact h2.symm

/-- Helper: stripping preserves the `spaced` invariant. -/
theorem pyStrip_spaced (l : List Char) (b : Bool) (h : spaced b l) :
    spaced false (pyStrip l) :=
  spaced_append_left _ _ _ (pyStrip_decomp l ▸ spaced_dropWhile l b h)

/-- Helper: a stripped list never starts with whitespace. -/
theorem pyStrip_head_false (l : List Char) {c : Char} {t : List Char}
    (h : pyStrip l = c :: t) : isPySpace c = false := by
  have hd := pyStrip_decomp l
  rw [h] at hd
  exact dropWhile_head_false hd

/-- Helper: a stripped list never ends with whitespace. -/
theorem pyStrip_last_false (l : List Char) {c : Char} {t : List Char}
    (h : (pyStrip l).reverse = c :: t) : isPySpace c = false := by
  have : (pyStrip l).reverse = (l.dropWhile isPySpace).reverse.dropWhile isPySpace := by
    unfold pyStrip
    rw [List.reverse_reverse]
  rw [this] at h
  exact dropWhile_head_false h

/-- Helper: stripping fixes a list with non-whitespace endpoints. -/
theorem pyStrip_eq_self (l : List Char)
    (h1 : ∀ c t, l = c :: t → isPySpace c = false)
    (h2 : ∀ c t, l.reverse = c :: t → isPySpace c = false) :
    pyStrip l = l := by
  have hd : l.dropWhile isPySpace = l := by
    cases hl : l with
    | nil => rfl
    | cons c t =>
      rw [List.dropWhile_cons, if_neg]
      simp [h1 c t hl]
  unfold pyStrip
  rw [hd]
  have hd2 : l.reverse.dropWhile isPySpace = l.reverse := by
    cases hl : l.reverse with
    | nil => simp [hl]
    | cons c t =>
      rw [List.dropWhile_cons, if_neg]
      simp [h2 c t hl]
  rw [hd2, List.reverse_reverse]

/-- **C7**: `normalize_text` is idempotent — applying it to its own
output changes nothing, for every input string. -/
theorem claim_C7_normalize_idempotent (x : List Char) :
    normalize_text (normalize_text x) = normalize_text x := by
  have hgood : ∀ c ∈ normalize_text x,
      keepChar c = true ∧ (isPySpace c = true → c = ' ') := by
    intro c hc
    have hc2 : c ∈ collapseWs ((x.map pyLower).filter keepChar) :=
      (pyStrip_sublist _).mem hc
    rcases collapse_mem _ false c hc2 with rfl | ⟨hmem, hnsp⟩
    · exact ⟨by decide, fun _ => rfl⟩
    · exact ⟨(List.mem_filter.mp hmem).2, fun hsp => absurd hsp (by simp [hnsp])⟩
  have hlower : (normalize_text x).map pyLower = normalize_text x :=
    map_eq_self_of_mem (fun c hc => pyLower_eq_self c (hgood c hc).1)
  have hfilter : (normalize_text x).filter keepChar = normalize_text x :=
    List.filter_eq_self.mpr (fun c hc => (hgood c hc).1)
  have hspaced : spaced false (normalize_text x) :=
    pyStrip_spaced _ false (collapse_spaced _ false)
  have hcollapse : collapseWs (normalize_text x) = normalize_text x :=
    collapse_fix _ false hspaced (fun c hc => (hgood c hc).2)
  have hstrip : pyStrip (normalize_text x) = normalize_text x := by
    apply pyStrip_eq_self
    · intro c t h
      exact pyStrip_head_false _ h
    · intro c t h
      exact pyStrip_last_false _ h
  show pyStrip (collapseWs (((normalize_text x).map pyLower).filter keepChar)) =
    normalize_text x
  rw [hlower, hfilter, hcollapse, hstrip]

end CRE
